import Mathlib

/-!
Shallow embedding of the Embedding Cache & Retrieval Engine of the
VV-PDFRAG repository (src/models/indexer.py, src/models/retriever.py),
together with theorems settling the frozen claims about it.

Modelling conventions:
* Python exceptions are modelled by `Except PyError`.
* Pickled byte blobs are modelled by `Blob := Option PValue`: `some v` is a
  blob that `pickle.loads` decodes to the value `v`, `none` is a corrupt
  blob on which `pickle.loads` raises.
* The diskcache `Cache` object is a finite association list from string
  keys to blobs; `iterkeys` yields the keys in stored order and diskcache
  stores them in database (lexical) sort order, expressed by `DCache.WF`.
* Numeric scalars of the source (numpy float64) are modelled by exact
  rationals.  A cosine-similarity value `dot / (norm q * norm d)` is kept
  unevaluated as the pair `SimVal.mk num den2` standing for the real
  number `num / Real.sqrt den2` where `den2 = normSq q * normSq d`
  (this equals the source expression since sqrt x * sqrt y = sqrt (x*y)
  for nonnegative x, y).  `den2 = 0` marks the float result NaN: in that
  case the numerator is necessarily 0 as well and numpy evaluates
  `0.0 / 0.0` to NaN without raising.
-/

/-- Claim-level model of a raised Python exception. -/
inductive PyError where
  /-- TypeError, e.g. pickle.loads(None) after a missing cache key, or
  subscripting a non-dict search result. -/
  | typeError : PyError
  /-- pickle.UnpicklingError on corrupt stored bytes. -/
  | unpicklingError : PyError
  /-- AttributeError, e.g. reading RAG.disk_cache when the attribute was
  never set. -/
  | attributeError : PyError
  /-- ValueError, e.g. np.dot on misaligned 1-D shapes. -/
  | valueError : PyError
  /-- PIL.UnidentifiedImageError, raised by Image.open on undecodable bytes. -/
  | imageError : PyError
  /-- UnboundLocalError: a function-local variable read before assignment. -/
  | unboundLocal : String → PyError
  /-- An exception raised inside an external collaborator (encoder, converter,
  native search). -/
  | external : String → PyError
  deriving DecidableEq, Repr

/-- Raw encoded image bytes.  `valid` records whether PIL's Image.open can
decode them (the byte-level image formats themselves are not modelled). -/
structure ImgBytes where
  data : List Nat
  valid : Bool
  deriving DecidableEq, Repr

/-- A Python value recovered by a successful pickle.loads: either a numpy
embedding vector or raw page-image bytes. -/
inductive PValue where
  | emb : List ℚ → PValue
  | img : ImgBytes → PValue
  deriving DecidableEq, Repr

/-- Stored pickled bytes: `some v` deserializes to `v`, `none` is corrupt. -/
def Blob : Type := Option PValue

instance : DecidableEq Blob := by unfold Blob; infer_instance

/-- Model of the diskcache `Cache`: an association list from keys to blobs,
kept in the database (lexical) key order, see `DCache.WF`. -/
structure DCache where
  entries : List (String × Blob)
  deriving DecidableEq

/-- Model of `Cache.get key` : the stored blob, or `none` (Python None) when the key
is absent. -/
def DCache.get (c : DCache) (k : String) : Option Blob :=
  (c.entries.find? (fun e => e.1 == k)).map (·.2)

/-- Model of `Cache.iterkeys()` : all keys in stored order. -/
def DCache.iterkeys (c : DCache) : List String :=
  c.entries.map (·.1)

/-- diskcache iterates keys in database sort order: the stored key sequence
is strictly increasing lexically. -/
def DCache.WF (c : DCache) : Prop :=
  c.iterkeys.Pairwise (· < ·)

/-- Model of `Cache.set key blob` : upsert, keeping the key order sorted (the store
is a SQLite index, so a fresh key is inserted at its sorted position). -/
def setEntries : List (String × Blob) → String → Blob → List (String × Blob)
  | [], k, b => [(k, b)]
  | (k', b') :: rest, k, b =>
    if k = k' then (k, b) :: rest
    else if k < k' then (k, b) :: (k', b') :: rest
    else (k', b') :: setEntries rest k b

/-- Model of `Cache.set` on the cache wrapper. -/
def DCache.set (c : DCache) (k : String) (b : Blob) : DCache :=
  ⟨setEntries c.entries k b⟩

/-- Model of `pickle.loads(cache.get(key))` — the composite read used throughout the
source: a missing key gives Python None and pickle.loads(None) raises
TypeError; corrupt bytes raise UnpicklingError. -/
def pickle_loads_get : Option Blob → Except PyError PValue
  | none => .error .typeError
  | some none => .error .unpicklingError
  | some (some v) => .ok v

/-- models/indexer.py DiskCacheIndexer: wraps a Cache. -/
structure DiskCacheIndexer where
  cache : DCache
  deriving DecidableEq

/-- store_image: `self.cache.set(key + "_image", pickle.dumps(image))`. -/
def DiskCacheIndexer.store_image (d : DiskCacheIndexer) (key : String)
    (image : PValue) : DiskCacheIndexer :=
  ⟨d.cache.set (key ++ "_image") (some image)⟩

/-- store_embedding: `self.cache.set(key + "_embedding", pickle.dumps(e))`. -/
def DiskCacheIndexer.store_embedding (d : DiskCacheIndexer) (key : String)
    (embedding : PValue) : DiskCacheIndexer :=
  ⟨d.cache.set (key ++ "_embedding") (some embedding)⟩

/-- get_image: `pickle.loads(self.cache.get(key + "_image"))`. -/
def DiskCacheIndexer.get_image (d : DiskCacheIndexer) (key : String) :
    Except PyError PValue :=
  pickle_loads_get (d.cache.get (key ++ "_image"))

/-- get_embedding: `pickle.loads(self.cache.get(key + "_embedding"))`. -/
def DiskCacheIndexer.get_embedding (d : DiskCacheIndexer) (key : String) :
    Except PyError PValue :=
  pickle_loads_get (d.cache.get (key ++ "_embedding"))

/-- Python str.endswith. -/
def pyEndsWith (s suffix : String) : Bool :=
  suffix.data.isSuffixOf s.data

/-- Python str.replace on character lists: replaces every non-overlapping
occurrence of `old`, scanning left to right.  `fuel` bounds the recursion;
with `fuel = s.length` it never runs out (each step consumes at least one
character).  Python's special case of an empty `old` is irrelevant here
(the source only replaces the non-empty "_embedding"). -/
def pyReplaceFuel (old new : List Char) : Nat → List Char → List Char
  | 0, s => s
  | _ + 1, [] => []
  | fuel + 1, c :: rest =>
    if old ≠ [] ∧ old.isPrefixOf (c :: rest) then
      new ++ pyReplaceFuel old new fuel ((c :: rest).drop old.length)
    else
      c :: pyReplaceFuel old new fuel rest

/-- Python str.replace (all occurrences, leftmost first). -/
def pyReplace (s old new : String) : String :=
  ⟨pyReplaceFuel old.data new.data s.data.length s.data⟩

/-- os.path.join with two components (POSIX). -/
def pathJoin (a b : String) : String := a ++ "/" ++ b

/-- hashlib.md5(bytes).hexdigest(), modelled as an (injective) deterministic
function of the raw bytes; the claims rely only on its determinism. -/
def md5_hexdigest (b : List Nat) : String :=
  b.foldl (fun acc n => acc ++ Nat.repr n ++ "x") ""

/-- Sum of coordinatewise products: np.dot on two equal-length 1-D arrays. -/
def dotList : List ℚ → List ℚ → ℚ
  | [], _ => 0
  | _, [] => 0
  | a :: as, b :: bs => a * b + dotList as bs

/-- Squared euclidean norm, `np.linalg.norm(v) ** 2`. -/
def normSq (v : List ℚ) : ℚ := dotList v v

/-- An unevaluated float similarity `num / sqrt den2`.  Produced with
`den2 = normSq q * normSq d ≥ 0`; `den2 = 0` marks the float NaN. -/
structure SimVal where
  num : ℚ
  den2 : ℚ
  deriving DecidableEq, Repr

/-- The real number `s.num / sqrt s.den2` is `≤` the one of `t`: the order
the Python float comparison in list.sort uses (meaningful when both
`den2` are positive). -/
def SimVal.rle (s t : SimVal) : Prop :=
  (s.num : ℝ) / Real.sqrt (s.den2 : ℝ) ≤ (t.num : ℝ) / Real.sqrt (t.den2 : ℝ)

/-- Strict version of `SimVal.rle`. -/
def SimVal.rlt (s t : SimVal) : Prop :=
  (s.num : ℝ) / Real.sqrt (s.den2 : ℝ) < (t.num : ℝ) / Real.sqrt (t.den2 : ℝ)

/-- The two similarity values denote the same real number. -/
def SimVal.req (s t : SimVal) : Prop :=
  (s.num : ℝ) / Real.sqrt (s.den2 : ℝ) = (t.num : ℝ) / Real.sqrt (t.den2 : ℝ)

/-- Decidable comparison of two similarity values, by sign analysis and
cross-multiplied squares; for positive `den2` it decides `SimVal.rle`
(theorem `SimVal.leb_iff_rle`).  On the `den2 = 0` NaN marker this is NOT
the CPython float comparison (there every comparison involving NaN is
false, see `pyFloatGe`); accordingly no theorem below relies on the order
this function gives NaN values. -/
def SimVal.leb (s t : SimVal) : Bool :=
  if s.num ≤ 0 then
    if 0 ≤ t.num then true
    else decide (t.num * t.num * s.den2 ≤ s.num * s.num * t.den2)
  else
    if t.num ≤ 0 then false
    else decide (s.num * s.num * t.den2 ≤ t.num * t.num * s.den2)

/-- models/retriever.py compute_similarity:
`np.dot(q, d) / (np.linalg.norm(q) * np.linalg.norm(d))`.
np.dot raises ValueError on misaligned 1-D shapes; otherwise the division
is performed unconditionally — there is no zero-norm guard in the source,
so a zero-norm operand yields the float NaN (`den2 = 0` below), never a
defined 0. -/
def compute_similarity (query_embedding document_embedding : List ℚ) :
    Except PyError SimVal :=
  if query_embedding.length = document_embedding.length then
    .ok ⟨dotList query_embedding document_embedding,
         normSq query_embedding * normSq document_embedding⟩
  else
    .error .valueError

/-- A native byaldi search result object; `base64` models the (already
base64-decoded) optional embedded image payload, `none` standing for an
absent attribute or an empty (falsy) payload. -/
structure NativeResult where
  base64 : Option ImgBytes
  deriving DecidableEq, Repr

/-- One dict appended by retrieve_from_disk:
`{"similarity": ..., "image": ..., "key": ...}`. -/
structure DiskResult where
  similarity : SimVal
  image : PValue
  key : String
  deriving DecidableEq, Repr

/-- A search-result object flowing into process_results: either a dict from
the disk path or a native byaldi Result object. -/
inductive ResultObj where
  | dict : DiskResult → ResultObj
  | native : NativeResult → ResultObj
  deriving DecidableEq, Repr

/-- Model of `result["image"]`: subscripting raises TypeError on a non-dict result. -/
def getItemImage : ResultObj → Except PyError PValue
  | .dict d => .ok d.image
  | .native _ => .error .typeError

/-- Model of `BytesIO(image_data)`: needs raw bytes; a non-bytes unpickled object
(e.g. an embedding array) raises TypeError. -/
def asBytes : PValue → Except PyError ImgBytes
  | .img b => .ok b
  | .emb _ => .error .typeError

/-- Model of `np.dot` coercion: np.dot needs a numeric array: an unpickled image-bytes object in an
`_embedding` slot raises TypeError. -/
def asArray : PValue → Except PyError (List ℚ)
  | .emb v => .ok v
  | .img _ => .error .typeError

/-- The RAG model object as the retriever sees it.  Attributes that the
source probes with hasattr or that may have never been assigned are
`Option`-valued, `none` meaning the attribute is absent. -/
structure RAGModel where
  use_disk_storage : Option Bool
  disk_cache : Option DiskCacheIndexer
  encode_query : String → List ℚ
  search : String → Nat → Except PyError (List NativeResult)

/-- The body of one iteration of the scan loop in retrieve_from_disk for a
key ending in "_embedding": deserialize the embedding, score it, fetch the
sibling image under `key.replace("_embedding", "_image")`, build the result
dict.  Any failure raises out of the loop — the source has no per-entry
try/except. -/
def scan_entry (dc : DCache) (q : List ℚ) (key : String) :
    Except PyError DiskResult :=
  match pickle_loads_get (dc.get key) with
  | .error e => .error e
  | .ok pv =>
    match asArray pv with
    | .error e => .error e
    | .ok emb =>
      match compute_similarity q emb with
      | .error e => .error e
      | .ok sim =>
        match pickle_loads_get (dc.get (pyReplace key "_embedding" "_image")) with
        | .error e => .error e
        | .ok img => .ok ⟨sim, img, key⟩

/-- The `for key in RAG.disk_cache.cache.iterkeys()` loop of
retrieve_from_disk, appending one result dict per "_embedding" key. -/
def scanKeys (dc : DCache) (q : List ℚ) : List String →
    Except PyError (List DiskResult)
  | [] => .ok []
  | key :: rest =>
    if pyEndsWith key "_embedding" then
      match scan_entry dc q key with
      | .error e => .error e
      | .ok r =>
        match scanKeys dc q rest with
        | .error e => .error e
        | .ok rs => .ok (r :: rs)
    else scanKeys dc q rest

/-- Stable descending insertion: place `x` before the first element whose
similarity is `≤` that of `x`.  Elements inserted earlier in source order
stay ahead of later equal ones. -/
def pyInsertDesc (x : DiskResult) : List DiskResult → List DiskResult
  | [] => [x]
  | y :: ys =>
    if SimVal.leb y.similarity x.similarity then x :: y :: ys
    else y :: pyInsertDesc x ys

/-- Model of `results.sort(key=lambda x: x["similarity"], reverse=True)` — CPython's
sort is stable and `reverse=True` preserves the original order of equal
keys; on totally ordered (non-NaN) similarity values any stable descending
sort computes the same list, modelled here by stable insertion sort.  On
NaN-carrying inputs CPython's timsort still returns some permutation of
the input, but an order this model does not reproduce; statements about
NaN-carrying outputs below therefore use only permutation-invariant
facts. -/
def pySortDesc : List DiskResult → List DiskResult
  | [] => []
  | x :: xs => pyInsertDesc x (pySortDesc xs)

/-- models/retriever.py retrieve_from_disk.  Accessing `RAG.disk_cache`
raises AttributeError when the attribute was never assigned. -/
def retrieve_from_disk (RAG : RAGModel) (query : String) (k : Nat) :
    Except PyError (List DiskResult) :=
  let q := RAG.encode_query query
  match RAG.disk_cache with
  | none => .error .attributeError
  | some d =>
    match scanKeys d.cache q d.cache.iterkeys with
    | .error e => .error e
    | .ok results => .ok ((pySortDesc results).take k)

/-- The relevant filesystem state: the set of existing file paths, plus a
chronological log of the image.save calls actually performed (to express
write-at-most-once properties).  os.makedirs only creates directories and
is not tracked. -/
structure FS where
  files : List String
  writes : List String
  deriving DecidableEq, Repr

/-- Model of `image.save(path, format="PNG")`: the file now exists; the save is
logged. -/
def FS.write (fs : FS) (p : String) : FS :=
  ⟨fs.files ++ [p], fs.writes ++ [p]⟩

/-- Filename `"retrieved_" + md5(image_data).hexdigest() + ".png"`. -/
def retrievedName (b : ImgBytes) : String :=
  "retrieved_" ++ md5_hexdigest b.data ++ ".png"

/-- The absolute write target
`os.path.join("static", "images", session_id, image_filename)`. -/
def fullPathOf (session_id : String) (b : ImgBytes) : String :=
  pathJoin (pathJoin (pathJoin "static" "images") session_id) (retrievedName b)

/-- The returned reference
`os.path.join("images", session_id, image_filename)`. -/
def relPathOf (session_id : String) (b : ImgBytes) : String :=
  pathJoin (pathJoin "images" session_id) (retrievedName b)

/-- The per-result body of the loop in process_results, from the point where
`image_data` bytes are in hand: Image.open validates the bytes (raising on
undecodable data), the file is written only if absent, and the relative
path is appended unconditionally. -/
def materialize_one (session_id : String) (b : ImgBytes) (fs : FS) :
    Except PyError (String × FS) :=
  if b.valid then
    let fs' := if fullPathOf session_id b ∈ fs.files then fs
               else fs.write (fullPathOf session_id b)
    .ok (relPathOf session_id b, fs')
  else .error .imageError

/-- The `for result in results` loop of models/retriever.py
process_results.  In disk mode `image_data = result["image"]` (raising on a
non-dict result or non-bytes payload); otherwise a truthy `result.base64`
payload is used, and a result with neither yields a warning and is skipped.
The base64.b64decode step is modelled as already performed inside
`NativeResult.base64`. -/
def process_go (RAG : RAGModel) (session_id : String) :
    List ResultObj → FS → Except PyError (List String × FS)
  | [], fs => .ok ([], fs)
  | result :: rest, fs =>
    if RAG.use_disk_storage = some true then
      match getItemImage result with
      | .error e => .error e
      | .ok pv =>
        match asBytes pv with
        | .error e => .error e
        | .ok b =>
          match materialize_one session_id b fs with
          | .error e => .error e
          | .ok (rel, fs') =>
            match process_go RAG session_id rest fs' with
            | .error e => .error e
            | .ok (paths, fs'') => .ok (rel :: paths, fs'')
    else
      match result with
      | .native nr =>
        match nr.base64 with
        | none => process_go RAG session_id rest fs
        | some b =>
          match materialize_one session_id b fs with
          | .error e => .error e
          | .ok (rel, fs') =>
            match process_go RAG session_id rest fs' with
            | .error e => .error e
            | .ok (paths, fs'') => .ok (rel :: paths, fs'')
      | .dict _ => process_go RAG session_id rest fs

/-- models/retriever.py process_results (the makedirs call is untracked). -/
def process_results (results : List ResultObj) (RAG : RAGModel)
    (session_id : String) (fs : FS) : Except PyError (List String × FS) :=
  process_go RAG session_id results fs

/-- The body of the `try` block of retrieve_documents: dispatch on
`hasattr(RAG, "use_disk_storage") and RAG.use_disk_storage`, then
materialize. -/
def retrieve_primary (RAG : RAGModel) (query session_id : String) (fs : FS)
    (k : Nat) : Except PyError (List String × FS) :=
  match (if RAG.use_disk_storage = some true then
           (retrieve_from_disk RAG query k).map (List.map ResultObj.dict)
         else
           (RAG.search query k).map (List.map ResultObj.native)) with
  | .error e => .error e
  | .ok results => process_results results RAG session_id fs

/-- The body of the `except AttributeError` clause of retrieve_documents:
one unprotected retry through the native search. -/
def retrieve_fallback (RAG : RAGModel) (query session_id : String) (fs : FS)
    (k : Nat) : Except PyError (List String × FS) :=
  match RAG.search query k with
  | .error e => .error e
  | .ok results => process_results (results.map ResultObj.native) RAG session_id fs

/-- models/retriever.py retrieve_documents: try the primary path; on
AttributeError run the fallback (whose own exceptions propagate — the
clause body is not protected by the outer handler); on any other exception
return the empty list. -/
def retrieve_documents (RAG : RAGModel) (query session_id : String) (fs : FS)
    (k : Nat := 3) : Except PyError (List String × FS) :=
  match retrieve_primary RAG query session_id fs k with
  | .ok r => .ok r
  | .error .attributeError => retrieve_fallback RAG query session_id fs k
  | .error _ => .ok ([], fs)

/-- The external collaborators of models/indexer.py index_documents: the
document converter, the encoder loader, the directory listing and the
per-document encoder, each free to raise. -/
structure IndexEnv where
  convert_docs_to_pdfs : String → Except PyError Unit
  from_pretrained : String → Except PyError RAGModel
  listdir : String → List String
  index_document : String → Except PyError (List ImgBytes × List (List ℚ))

/-- Reading a Python function-local variable whose (unique) assignment
statement has not yet executed raises UnboundLocalError. -/
def unboundLocalRead (name : String) (α : Type) : Except PyError α :=
  .error (.unboundLocal name)

/-- The `for file in os.listdir(...)` indexing loop: each .pdf is encoded
and its pages stored pairwise under keys `file + "_" + i`. -/
def index_folder_loop (env : IndexEnv) (folder_path : String)
    (dc : DiskCacheIndexer) : Except PyError DiskCacheIndexer :=
  (env.listdir folder_path).foldlM
    (fun dc file =>
      if pyEndsWith file ".pdf" then
        match env.index_document (pathJoin folder_path file) with
        | .error e => .error e
        | .ok (images, embeddings) =>
          .ok ((images.zip embeddings).enum.foldl
            (fun dc p =>
              let key := file ++ "_" ++ Nat.repr p.1
              (dc.store_image key (.img p.2.1)).store_embedding key
                (.emb p.2.2))
            dc)
      else .ok dc)
    dc

/-- models/indexer.py index_documents.  The statement
`RAG.disk_cache = disk_cache` executes before the local variable
`disk_cache` is assigned (its assignment only happens further down), so the
read raises UnboundLocalError; the surrounding `except` logs and re-raises.
Everything after that read is dead code but is still rendered faithfully.
The source's `if RAG is None` test can never fire here because a
`from_pretrained` that produced no object is modelled as raising. -/
def index_documents (env : IndexEnv) (folder_path : String)
    (index_name : String := "document_index") (index_path : Option String := none)
    (indexer_model : String := "vidore/colpali") : Except PyError RAGModel :=
  let body : Except PyError RAGModel :=
    match env.convert_docs_to_pdfs folder_path with
    | .error e => .error e
    | .ok _ =>
      match env.from_pretrained indexer_model with
      | .error e => .error e
      | .ok RAG0 =>
        let RAG1 := { RAG0 with use_disk_storage := some true }
        match unboundLocalRead "disk_cache" DiskCacheIndexer with
        | .error e => .error e
        | .ok dc0 =>
          let RAG2 := { RAG1 with disk_cache := some dc0 }
          let disk_cache : DiskCacheIndexer := ⟨⟨[]⟩⟩
          match index_folder_loop env folder_path disk_cache with
          | .error e => .error e
          | .ok disk_cache =>
            let RAG3 := { RAG2 with use_disk_storage := some true,
                                    disk_cache := some disk_cache }
            .ok RAG3
  match body with
  | .ok r => .ok r
  | .error e => .error e

/-- The output order the retrieval engine promises: strictly descending by
the real similarity value, with ties broken by the lexical order of the
cache keys. -/
def resOrder (a b : DiskResult) : Prop :=
  SimVal.rlt b.similarity a.similarity ∨
    (SimVal.req a.similarity b.similarity ∧ a.key < b.key)

/-- The embedding vector stored under a key (junk value on any other
content; only quoted where success of the scan pins the shape down). -/
def embOf (dc : DCache) (key : String) : List ℚ :=
  match dc.get key with
  | some (some (.emb e)) => e
  | _ => []

/-- An entry is valid for a query precisely when its scan step succeeds:
the stored blob deserializes to an embedding of the query's length and the
sibling image blob is present and deserializes. -/
def entryOK (dc : DCache) (q : List ℚ) (key : String) : Bool :=
  (scan_entry dc q key).isOk

/-- The raw bytes carried by a disk result (junk on a non-bytes payload;
only quoted where validity pins the shape down). -/
def imgBytesOf (r : DiskResult) : ImgBytes :=
  match r.image with
  | .img b => b
  | .emb _ => ⟨[], false⟩

/-- A disk result that makes the process_results loop raise in disk mode:
a non-dict object, a non-bytes image payload, or undecodable bytes. -/
def resultAborts : ResultObj → Bool
  | .dict d =>
    match d.image with
    | .img b => !b.valid
    | .emb _ => true
  | .native _ => true

/-- No occurrence of `old` starts strictly inside `b` within `b ++ old`
(decidable side condition for the correct-sibling lemma). -/
def keyCleanFor (b old : String) : Bool :=
  (List.range b.data.length).all
    (fun p => !(old.data.isPrefixOf ((b.data ++ old.data).drop p)))

/-- A RAG model with no disk attributes (used as encoder-loader output). -/
def ragPlain : RAGModel :=
  ⟨none, none, fun _ => [], fun _ _ => .ok []⟩

/-- An indexing environment whose converter and encoder both succeed. -/
def envOK : IndexEnv :=
  ⟨fun _ => .ok (), fun _ => .ok ragPlain, fun _ => ["report.pdf"],
   fun _ => .ok ([⟨[1], true⟩], [[1]])⟩

/-- Cache with one complete pair and one orphaned embedding entry
(missing its `_image` sibling). -/
def dcOrphan : DCache :=
  ⟨[("a_0_embedding", some (.emb [1])),
    ("a_0_image", some (.img ⟨[7], true⟩)),
    ("b_0_embedding", some (.emb [1]))]⟩

/-- Disk-backed RAG model over the orphaned cache. -/
def ragOrphan : RAGModel :=
  ⟨some true, some ⟨dcOrphan⟩, fun _ => [1], fun _ _ => .ok []⟩

/-- A batch with one undecodable image among two valid ones. -/
def badBatch : List ResultObj :=
  [.dict ⟨⟨1, 1⟩, .img ⟨[1], true⟩, "a_0_embedding"⟩,
   .dict ⟨⟨1, 1⟩, .img ⟨[2], false⟩, "b_0_embedding"⟩,
   .dict ⟨⟨1, 1⟩, .img ⟨[3], true⟩, "c_0_embedding"⟩]

/-- Disk-mode RAG whose disk_cache attribute was never assigned and whose
native search raises. -/
def ragNoCache : RAGModel :=
  ⟨some true, none, fun _ => [], fun _ _ => .error (.external "native search down")⟩

/-- Cache with three complete page pairs. -/
def dcThree : DCache :=
  ⟨[("a.pdf_0_embedding", some (.emb [1, 0])),
    ("a.pdf_0_image", some (.img ⟨[1], true⟩)),
    ("b.pdf_0_embedding", some (.emb [9/10, 1/10])),
    ("b.pdf_0_image", some (.img ⟨[2], true⟩)),
    ("c.pdf_0_embedding", some (.emb [0, 1])),
    ("c.pdf_0_image", some (.img ⟨[3], true⟩))]⟩

/-- Disk-backed RAG model over the three-page cache; the query encodes to
the vector `[1, 0]`. -/
def ragThree : RAGModel :=
  ⟨some true, some ⟨dcThree⟩, fun _ => [1, 0], fun _ _ => .ok []⟩

/-- Two distinct results carrying bit-identical image bytes. -/
def resDupA : DiskResult := ⟨⟨1, 1⟩, .img ⟨[5], true⟩, "k1"⟩

/-- Second result with the same bytes as `resDupA`. -/
def resDupB : DiskResult := ⟨⟨1, 2⟩, .img ⟨[5], true⟩, "k2"⟩

/-- A disk-mode RAG model used only for materialization runs. -/
def ragDiskOnly : RAGModel :=
  ⟨some true, none, fun _ => [], fun _ _ => .ok []⟩

/-- Cache with two complete page pairs (used to instantiate the ordering
claim). -/
def dcTwo : DCache :=
  ⟨[("a_0_embedding", some (.emb [1, 0])),
    ("a_0_image", some (.img ⟨[1], true⟩)),
    ("b_0_embedding", some (.emb [0, 1])),
    ("b_0_image", some (.img ⟨[2], true⟩))]⟩

/-- Disk-backed RAG model over `dcTwo`; the query encodes to `[1, 0]`. -/
def ragTwo : RAGModel :=
  ⟨some true, some ⟨dcTwo⟩, fun _ => [1, 0], fun _ _ => .ok []⟩

/-- The scan result for the first page of `dcTwo` (similarity left in its
unevaluated produced form). -/
def rTwoA : DiskResult :=
  ⟨⟨dotList [1, 0] [1, 0], normSq [1, 0] * normSq [1, 0]⟩,
   .img ⟨[1], true⟩, "a_0_embedding"⟩

/-- The scan result for the second page of `dcTwo`. -/
def rTwoB : DiskResult :=
  ⟨⟨dotList [1, 0] [0, 1], normSq [1, 0] * normSq [0, 1]⟩,
   .img ⟨[2], true⟩, "b_0_embedding"⟩

/-- IEEE float `s >= t` on NaN-marked similarity values: true exactly when
neither operand is the NaN marker and the denoted reals compare.  Every
comparison involving NaN is false, so no sequence containing a NaN
similarity is sorted in descending order. -/
def pyFloatGe (s t : SimVal) : Prop :=
  s.den2 ≠ 0 ∧ t.den2 ≠ 0 ∧ SimVal.rle t s

/-- Cache with one valid pair and one corrupt `_embedding` blob: one valid
cached embedding entry in the claim's sense. -/
def dcMixed : DCache :=
  ⟨[("a_0_embedding", some (.emb [1])),
    ("a_0_image", some (.img ⟨[1], true⟩)),
    ("z_0_embedding", none)]⟩

/-- Disk-backed RAG model over the mixed cache. -/
def ragMixed : RAGModel :=
  ⟨some true, some ⟨dcMixed⟩, fun _ => [1], fun _ _ => .ok []⟩

/-- Cache with two complete, deserializable pairs, the first of which
stores a zero-norm embedding (its similarity is the float NaN). -/
def dcNaN : DCache :=
  ⟨[("a_0_embedding", some (.emb [0, 0])),
    ("a_0_image", some (.img ⟨[1], true⟩)),
    ("b_0_embedding", some (.emb [1, 0])),
    ("b_0_image", some (.img ⟨[2], true⟩))]⟩

/-- Disk-backed RAG model over `dcNaN`; the query encodes to `[1, 0]`. -/
def ragNaN : RAGModel :=
  ⟨some true, some ⟨dcNaN⟩, fun _ => [1, 0], fun _ _ => .ok []⟩

/-- The scanned entry for the zero-norm page of `dcNaN` (similarity in its
unevaluated produced form; its `den2` is 0: NaN). -/
def rNaNa : DiskResult :=
  ⟨⟨dotList [1, 0] [0, 0], normSq [1, 0] * normSq [0, 0]⟩,
   .img ⟨[1], true⟩, "a_0_embedding"⟩

/-- The scanned entry for the unit-norm page of `dcNaN`. -/
def rNaNb : DiskResult :=
  ⟨⟨dotList [1, 0] [1, 0], normSq [1, 0] * normSq [1, 0]⟩,
   .img ⟨[2], true⟩, "b_0_embedding"⟩

/-- Upserting then looking up the same key finds the new blob. -/
theorem setEntries_find_self (entries : List (String × Blob)) (k : String)
    (b : Blob) :
    (setEntries entries k b).find? (fun e => e.1 == k) = some (k, b) := by
  induction entries with
  | nil => simp [setEntries]
  | cons e rest ih =>
    obtain ⟨k', b'⟩ := e
    by_cases hk : k = k'
    · simp [setEntries, hk]
    · by_cases hlt : k < k'
      · simp [setEntries, hk, hlt]
      · have hne : (k' == k) = false := by
          simp only [beq_eq_false_iff_ne, ne_eq]
          exact fun h => hk h.symm
        simp [setEntries, hk, hlt, List.find?, hne, ih]

/-- Cache-level get-after-set. -/
theorem DCache.get_set_self (c : DCache) (k : String) (b : Blob) :
    (c.set k b).get k = some b := by
  simp [DCache.get, DCache.set, setEntries_find_self]

/-- Unfolding of the squared norm on a cons cell. -/
theorem normSq_cons (a : ℚ) (v : List ℚ) :
    normSq (a :: v) = a * a + normSq v := rfl

/-- A sum of squares is nonnegative. -/
theorem normSq_nonneg (v : List ℚ) : 0 ≤ normSq v := by
  induction v with
  | nil => simp [normSq, dotList]
  | cons a as ih =>
    rw [normSq_cons]
    exact add_nonneg (mul_self_nonneg a) ih

/-- A vector of vanishing squared norm has zero dot product with anything:
its coordinates are all zero. -/
theorem dotList_eq_zero_left (q : List ℚ) (h : normSq q = 0) :
    ∀ d : List ℚ, dotList q d = 0 := by
  induction q with
  | nil => intro d; cases d <;> simp [dotList]
  | cons a as ih =>
    intro d
    rw [normSq_cons] at h
    have h2 : a * a = 0 ∧ normSq as = 0 :=
      (add_eq_zero_iff_of_nonneg (mul_self_nonneg a) (normSq_nonneg as)).mp h
    have ha : a = 0 := mul_self_eq_zero.mp h2.1
    cases d with
    | nil => simp [dotList]
    | cons b bs => simp [dotList, ha, ih h2.2 bs]

/-- Symmetric form of `dotList_eq_zero_left`. -/
theorem dotList_eq_zero_right (d : List ℚ) (h : normSq d = 0) :
    ∀ q : List ℚ, dotList q d = 0 := by
  induction d with
  | nil => intro q; cases q <;> simp [dotList]
  | cons b bs ih =>
    intro q
    rw [normSq_cons] at h
    have h2 : b * b = 0 ∧ normSq bs = 0 :=
      (add_eq_zero_iff_of_nonneg (mul_self_nonneg b) (normSq_nonneg bs)).mp h
    have hb : b = 0 := mul_self_eq_zero.mp h2.1
    cases q with
    | nil => simp [dotList]
    | cons a as => simp [dotList, hb, ih h2.2 as]

/-- Squares compare like their nonnegative roots, with sqrt factors
absorbed: for nonnegative a, b, x, y,
`a * sqrt y ≤ b * sqrt x ↔ a * a * y ≤ b * b * x`. -/
theorem mul_sqrt_le_mul_sqrt_iff {a b x y : ℝ} (ha : 0 ≤ a) (hb : 0 ≤ b)
    (hx : 0 ≤ x) (hy : 0 ≤ y) :
    a * Real.sqrt y ≤ b * Real.sqrt x ↔ a * a * y ≤ b * b * x := by
  have hay : 0 ≤ a * Real.sqrt y := mul_nonneg ha (Real.sqrt_nonneg y)
  have hbx : 0 ≤ b * Real.sqrt x := mul_nonneg hb (Real.sqrt_nonneg x)
  rw [mul_self_le_mul_self_iff hay hbx]
  constructor
  · intro h
    calc a * a * y = a * Real.sqrt y * (a * Real.sqrt y) := by
          rw [mul_mul_mul_comm, Real.mul_self_sqrt hy]
      _ ≤ b * Real.sqrt x * (b * Real.sqrt x) := h
      _ = b * b * x := by rw [mul_mul_mul_comm, Real.mul_self_sqrt hx]
  · intro h
    calc a * Real.sqrt y * (a * Real.sqrt y) = a * a * y := by
          rw [mul_mul_mul_comm, Real.mul_self_sqrt hy]
      _ ≤ b * b * x := h
      _ = b * Real.sqrt x * (b * Real.sqrt x) := by
          rw [mul_mul_mul_comm, Real.mul_self_sqrt hx]

/-- The decidable comparison `SimVal.leb` computes exactly the order of the
denoted real similarity values, whenever both denominators are positive
(i.e. neither value is the NaN marker). -/
theorem SimVal.leb_iff_rle (s t : SimVal) (hs : 0 < s.den2) (ht : 0 < t.den2) :
    SimVal.leb s t = true ↔ SimVal.rle s t := by
  have hx : (0 : ℝ) < (s.den2 : ℝ) := by exact_mod_cast hs
  have hy : (0 : ℝ) < (t.den2 : ℝ) := by exact_mod_cast ht
  have hsx : 0 < Real.sqrt (s.den2 : ℝ) := Real.sqrt_pos.mpr hx
  have hsy : 0 < Real.sqrt (t.den2 : ℝ) := Real.sqrt_pos.mpr hy
  have hdiv : SimVal.rle s t ↔
      (s.num : ℝ) * Real.sqrt (t.den2 : ℝ) ≤
        (t.num : ℝ) * Real.sqrt (s.den2 : ℝ) := by
    unfold SimVal.rle
    exact div_le_div_iff₀ hsx hsy
  by_cases hA : s.num ≤ 0
  · by_cases hB : 0 ≤ t.num
    · have haR : ((s.num : ℝ)) ≤ 0 := by exact_mod_cast hA
      have hbR : (0 : ℝ) ≤ (t.num : ℝ) := by exact_mod_cast hB
      simp only [SimVal.leb, hA, hB, if_true, if_pos, true_iff]
      rw [hdiv]
      calc (s.num : ℝ) * Real.sqrt (t.den2 : ℝ) ≤ 0 :=
            mul_nonpos_of_nonpos_of_nonneg haR (Real.sqrt_nonneg _)
        _ ≤ (t.num : ℝ) * Real.sqrt (s.den2 : ℝ) :=
            mul_nonneg hbR (Real.sqrt_nonneg _)
    · have hbneg : t.num < 0 := lt_of_not_ge hB
      have haR : ((s.num : ℝ)) ≤ 0 := by exact_mod_cast hA
      have hbR : (t.num : ℝ) < 0 := by exact_mod_cast hbneg
      simp only [SimVal.leb, hA, hB, if_true, if_false, if_pos, if_neg,
        not_false_iff, decide_eq_true_eq]
      rw [hdiv]
      have key : (-(t.num : ℝ)) * Real.sqrt (s.den2 : ℝ) ≤
            (-(s.num : ℝ)) * Real.sqrt (t.den2 : ℝ) ↔
          (-(t.num : ℝ)) * (-(t.num : ℝ)) * (s.den2 : ℝ) ≤
            (-(s.num : ℝ)) * (-(s.num : ℝ)) * (t.den2 : ℝ) :=
        mul_sqrt_le_mul_sqrt_iff (neg_nonneg.mpr hbR.le) (neg_nonneg.mpr haR)
          hy.le hx.le
      simp only [neg_mul_neg] at key
      constructor
      · intro h
        have hq : ((t.num * t.num * s.den2 : ℚ) : ℝ) ≤
            ((s.num * s.num * t.den2 : ℚ) : ℝ) := by exact_mod_cast h
        push_cast at hq
        have := key.mpr hq
        linarith
      · intro h
        have h2 : (-(t.num : ℝ)) * Real.sqrt (s.den2 : ℝ) ≤
            (-(s.num : ℝ)) * Real.sqrt (t.den2 : ℝ) := by linarith
        have hq := key.mp h2
        exact_mod_cast hq
  · have hapos : 0 < s.num := lt_of_not_ge hA
    have haR : (0 : ℝ) < (s.num : ℝ) := by exact_mod_cast hapos
    by_cases hB : t.num ≤ 0
    · have hbR : (t.num : ℝ) ≤ 0 := by exact_mod_cast hB
      simp only [SimVal.leb, hA, hB, if_false, if_true, if_pos, if_neg,
        not_false_iff, Bool.false_eq_true, false_iff]
      rw [hdiv]
      intro h
      have h1 : (t.num : ℝ) * Real.sqrt (s.den2 : ℝ) ≤ 0 :=
        mul_nonpos_of_nonpos_of_nonneg hbR (Real.sqrt_nonneg _)
      have h2 : 0 < (s.num : ℝ) * Real.sqrt (t.den2 : ℝ) := mul_pos haR hsy
      linarith
    · have hbpos : 0 < t.num := lt_of_not_ge hB
      have hbR : (0 : ℝ) < (t.num : ℝ) := by exact_mod_cast hbpos
      simp only [SimVal.leb, hA, hB, if_false, if_neg, not_false_iff,
        decide_eq_true_eq]
      rw [hdiv]
      have key : (s.num : ℝ) * Real.sqrt (t.den2 : ℝ) ≤
            (t.num : ℝ) * Real.sqrt (s.den2 : ℝ) ↔
          (s.num : ℝ) * (s.num : ℝ) * (t.den2 : ℝ) ≤
            (t.num : ℝ) * (t.num : ℝ) * (s.den2 : ℝ) :=
        mul_sqrt_le_mul_sqrt_iff haR.le hbR.le hx.le hy.le
      rw [key]
      constructor
      · intro h
        have hq : ((s.num * s.num * t.den2 : ℚ) : ℝ) ≤
            ((t.num * t.num * s.den2 : ℚ) : ℝ) := by exact_mod_cast h
        push_cast at hq
        exact hq
      · intro h
        have hq : (s.num * s.num * t.den2 : ℚ) ≤ (t.num * t.num * s.den2 : ℚ) := by
          exact_mod_cast h
        exact_mod_cast hq

/-- Strict comparison implies weak comparison. -/
theorem SimVal.rlt_rle {s t : SimVal} (h : s.rlt t) : s.rle t := by
  unfold SimVal.rlt at h
  unfold SimVal.rle
  exact le_of_lt h

/-- Equality of denoted values implies weak comparison. -/
theorem SimVal.req_rle {s t : SimVal} (h : s.req t) : s.rle t := by
  unfold SimVal.req at h
  unfold SimVal.rle
  exact le_of_eq h

/-- Symmetry of denoted-value equality. -/
theorem SimVal.req_symm {s t : SimVal} (h : s.req t) : t.req s := by
  unfold SimVal.req at h ⊢
  exact h.symm

/-- Transitivity across `rle`. -/
theorem SimVal.rle_trans {s t u : SimVal} (h1 : s.rle t) (h2 : t.rle u) :
    s.rle u := by
  unfold SimVal.rle at h1 h2 ⊢
  exact le_trans h1 h2

/-- A real `≤` splits into `<` or `=`. -/
theorem SimVal.rle_iff_rlt_or_req {s t : SimVal} :
    s.rle t ↔ s.rlt t ∨ s.req t := by
  unfold SimVal.rle SimVal.rlt SimVal.req
  exact le_iff_lt_or_eq

/-- A failed comparison is a strict reverse comparison (positive
denominators). -/
theorem SimVal.leb_false_iff_rlt (s t : SimVal) (hs : 0 < s.den2)
    (ht : 0 < t.den2) : SimVal.leb s t = false ↔ SimVal.rlt t s := by
  have h := SimVal.leb_iff_rle s t hs ht
  constructor
  · intro hfalse
    have : ¬ SimVal.rle s t := by
      intro hle
      rw [← h] at hle
      rw [hfalse] at hle
      exact Bool.false_ne_true hle
    unfold SimVal.rle at this
    unfold SimVal.rlt
    exact lt_of_not_ge this
  · intro hlt
    cases hEq : SimVal.leb s t with
    | false => rfl
    | true =>
      have hle := h.mp hEq
      unfold SimVal.rle at hle
      unfold SimVal.rlt at hlt
      exact absurd hle (not_le_of_gt hlt)

/-- If `b`'s value is at most `a`'s and `a`'s key is lexically smaller,
`a` may precede `b`. -/
theorem resOrder_of_rle {a b : DiskResult}
    (h : SimVal.rle b.similarity a.similarity) (hk : a.key < b.key) :
    resOrder a b := by
  rcases SimVal.rle_iff_rlt_or_req.mp h with h' | h'
  · exact Or.inl h'
  · exact Or.inr ⟨SimVal.req_symm h', hk⟩

/-- Membership in a stable descending insertion. -/
theorem mem_pyInsertDesc {a x : DiskResult} {l : List DiskResult} :
    a ∈ pyInsertDesc x l ↔ a = x ∨ a ∈ l := by
  induction l with
  | nil => simp [pyInsertDesc]
  | cons y ys ih =>
    by_cases h : SimVal.leb y.similarity x.similarity
    · simp [pyInsertDesc, h]
    · simp only [pyInsertDesc, h, if_false, Bool.false_eq_true,
        List.mem_cons, ih]
      tauto

/-- Insertion is a permutation of consing. -/
theorem pyInsertDesc_perm (x : DiskResult) (l : List DiskResult) :
    List.Perm (pyInsertDesc x l) (x :: l) := by
  induction l with
  | nil => exact List.Perm.refl _
  | cons y ys ih =>
    by_cases h : SimVal.leb y.similarity x.similarity
    · simp [pyInsertDesc, h]
    · simp only [pyInsertDesc, h, if_false, Bool.false_eq_true]
      exact List.Perm.trans (ih.cons y) (List.Perm.swap x y ys)

/-- The sort is a permutation of its input. -/
theorem pySortDesc_perm (l : List DiskResult) : List.Perm (pySortDesc l) l := by
  induction l with
  | nil => exact List.Perm.refl _
  | cons x xs ih =>
    exact List.Perm.trans (pyInsertDesc_perm x (pySortDesc xs)) (ih.cons x)

/-- The sort preserves length. -/
theorem pySortDesc_length (l : List DiskResult) :
    (pySortDesc l).length = l.length :=
  (pySortDesc_perm l).length_eq

/-- Stable descending insertion preserves the ranked order, provided the
inserted element carries a comparable (non-NaN) similarity and a key
lexically below every present key. -/
theorem pyInsertDesc_pairwise {x : DiskResult} {l : List DiskResult}
    (hx : 0 < x.similarity.den2)
    (hl : ∀ y ∈ l, 0 < y.similarity.den2)
    (hkey : ∀ y ∈ l, x.key < y.key)
    (hp : l.Pairwise resOrder) :
    (pyInsertDesc x l).Pairwise resOrder := by
  induction l with
  | nil => simp [pyInsertDesc, resOrder]
  | cons y ys ih =>
    have hy : 0 < y.similarity.den2 := hl y (List.mem_cons_self y ys)
    rcases List.pairwise_cons.mp hp with ⟨hyall, hys⟩
    by_cases h : SimVal.leb y.similarity x.similarity
    · simp only [pyInsertDesc, h, if_true, if_pos]
      have hyx : SimVal.rle y.similarity x.similarity :=
        (SimVal.leb_iff_rle _ _ hy hx).mp h
      refine List.pairwise_cons.mpr ⟨?_, hp⟩
      intro z hz
      rcases List.mem_cons.mp hz with rfl | hzys
      · exact resOrder_of_rle hyx (hkey z (List.mem_cons_self z ys))
      · have hzle : SimVal.rle z.similarity x.similarity := by
          rcases hyall z hzys with h' | h'
          · exact SimVal.rle_trans (SimVal.rlt_rle h') hyx
          · exact SimVal.rle_trans (SimVal.req_rle (SimVal.req_symm h'.1)) hyx
        exact resOrder_of_rle hzle (hkey z (List.mem_cons_of_mem y hzys))
    · simp only [pyInsertDesc, h, if_false, Bool.false_eq_true]
      have hEqF : SimVal.leb y.similarity x.similarity = false := by
        cases hEq : SimVal.leb y.similarity x.similarity
        · rfl
        · exact absurd hEq h
      have hxy : SimVal.rlt x.similarity y.similarity :=
        (SimVal.leb_false_iff_rlt _ _ hy hx).mp hEqF
      refine List.pairwise_cons.mpr ⟨?_, ?_⟩
      · intro z hz
        rcases mem_pyInsertDesc.mp hz with rfl | hzys
        · exact Or.inl hxy
        · exact hyall z hzys
      · exact ih (fun w hw => hl w (List.mem_cons_of_mem y hw))
          (fun w hw => hkey w (List.mem_cons_of_mem y hw)) hys

/-- A key-ascending scan list of comparable entries sorts into the ranked
order: descending real similarity, ties in lexical key order. -/
theorem pySortDesc_pairwise {l : List DiskResult}
    (hl : ∀ y ∈ l, 0 < y.similarity.den2)
    (hkeys : l.Pairwise (fun a b => a.key < b.key)) :
    (pySortDesc l).Pairwise resOrder := by
  induction l with
  | nil => simp [pySortDesc]
  | cons x xs ih =>
    rcases List.pairwise_cons.mp hkeys with ⟨hxall, hxs⟩
    have hmem : ∀ y ∈ pySortDesc xs, y ∈ xs := fun y hy =>
      (pySortDesc_perm xs).mem_iff.mp hy
    exact pyInsertDesc_pairwise (hl x (List.mem_cons_self x xs))
      (fun y hy => hl y (List.mem_cons_of_mem x (hmem y hy)))
      (fun y hy => hxall y (hmem y hy))
      (ih (fun y hy => hl y (List.mem_cons_of_mem x hy)) hxs)

/-- An `Except` is `isOk` exactly when it carries a value. -/
theorem except_isOk_iff {ε α : Type} (e : Except ε α) :
    e.isOk = true ↔ ∃ a, e = .ok a := by
  cases e <;> simp [Except.isOk, Except.toBool]

/-- The composite read succeeds exactly on a present, uncorrupt blob. -/
theorem pickle_loads_get_ok {o : Option Blob} {pv : PValue} :
    pickle_loads_get o = .ok pv ↔ o = some (some pv) := by
  match o with
  | none => simp [pickle_loads_get]
  | some none => simp [pickle_loads_get]
  | some (some v) =>
    constructor
    · intro h
      injection h with h'
      rw [h']
    · intro h
      have h2 : (some v : Blob) = some pv := Option.some.inj h
      have h3 : v = pv := Option.some.inj h2
      rw [h3]
      rfl

/-- A successful scan of one `_embedding` key yields the dict for that key,
whose similarity is the unevaluated cosine of the query against the stored
embedding. -/
theorem scan_entry_ok_spec {dc : DCache} {q : List ℚ} {key : String}
    {r : DiskResult} (h : scan_entry dc q key = .ok r) :
    r.key = key ∧
    dc.get key = some (some (.emb (embOf dc key))) ∧
    r.similarity = ⟨dotList q (embOf dc key),
                    normSq q * normSq (embOf dc key)⟩ := by
  unfold scan_entry at h
  cases h1 : pickle_loads_get (dc.get key) with
  | error e => rw [h1] at h; cases h
  | ok pv =>
    rw [h1] at h
    have hget : dc.get key = some (some pv) := pickle_loads_get_ok.mp h1
    cases pv with
    | img b => cases h
    | emb emb =>
      have hemb : embOf dc key = emb := by simp [embOf, hget]
      simp only [asArray] at h
      unfold compute_similarity at h
      by_cases hlen : q.length = emb.length
      · simp only [hlen, if_true, if_pos] at h
        cases h2 : pickle_loads_get (dc.get (pyReplace key "_embedding" "_image")) with
        | error e => rw [h2] at h; cases h
        | ok img =>
          rw [h2] at h
          injection h with h
          subst h
          exact ⟨rfl, by rw [hemb]; exact hget, by rw [hemb]⟩
      · simp only [hlen, if_false] at h
        cases h

/-- A successful whole-cache scan visits exactly the `_embedding` keys in
iteration order, each via its successful `scan_entry`. -/
theorem scanKeys_ok_spec {dc : DCache} {q : List ℚ} {keys : List String}
    {rs : List DiskResult} (h : scanKeys dc q keys = .ok rs) :
    rs.map (·.key) = keys.filter (fun k => pyEndsWith k "_embedding") ∧
    ∀ r ∈ rs, scan_entry dc q r.key = .ok r := by
  induction keys generalizing rs with
  | nil =>
    unfold scanKeys at h
    injection h with h
    subst h
    simp
  | cons key rest ih =>
    unfold scanKeys at h
    by_cases hends : pyEndsWith key "_embedding"
    · rw [if_pos hends] at h
      cases h1 : scan_entry dc q key with
      | error e => rw [h1] at h; cases h
      | ok r =>
        rw [h1] at h
        cases h2 : scanKeys dc q rest with
        | error e => rw [h2] at h; cases h
        | ok rs' =>
          rw [h2] at h
          injection h with h
          subst h
          obtain ⟨hmap, hall⟩ := ih h2
          have hkey : r.key = key := (scan_entry_ok_spec h1).1
          constructor
          · simp [List.filter, hends, hmap, hkey]
          · intro r' hr'
            rcases List.mem_cons.mp hr' with rfl | hmem
            · rw [hkey]; exact h1
            · exact hall r' hmem
    · rw [if_neg hends] at h
      obtain ⟨hmap, hall⟩ := ih h
      refine ⟨?_, hall⟩
      have : (pyEndsWith key "_embedding") = false := by
        cases hb : pyEndsWith key "_embedding"
        · rfl
        · exact absurd hb hends
      simp [List.filter, this, hmap]

/-- When every `_embedding` entry is valid, the scan completes. -/
theorem scanKeys_ok_of_valid {dc : DCache} {q : List ℚ} {keys : List String}
    (h : ∀ k ∈ keys, pyEndsWith k "_embedding" = true → entryOK dc q k = true) :
    ∃ rs, scanKeys dc q keys = .ok rs := by
  induction keys with
  | nil => exact ⟨[], rfl⟩
  | cons key rest ih =>
    obtain ⟨rs', hrs'⟩ := ih fun k hk => h k (List.mem_cons_of_mem key hk)
    by_cases hends : pyEndsWith key "_embedding"
    · have hok := h key (List.mem_cons_self key rest) hends
      obtain ⟨r, hr⟩ := (except_isOk_iff _).mp hok
      refine ⟨r :: rs', ?_⟩
      unfold scanKeys
      rw [if_pos hends, hr, hrs']
    · refine ⟨rs', ?_⟩
      unfold scanKeys
      rw [if_neg hends]
      exact hrs'

/-- One invalid `_embedding` entry anywhere in the key sequence aborts the
whole scan with an exception: there is no per-entry error absorption in
retrieve_from_disk. -/
theorem scanKeys_error_of_invalid {dc : DCache} {q : List ℚ}
    {keys : List String}
    (h : ∃ k ∈ keys, pyEndsWith k "_embedding" = true ∧ entryOK dc q k = false) :
    ∃ e, scanKeys dc q keys = .error e := by
  induction keys with
  | nil => obtain ⟨k, hk, _⟩ := h; cases hk
  | cons key rest ih =>
    obtain ⟨k, hk, hkends, hkbad⟩ := h
    by_cases hends : pyEndsWith key "_embedding"
    · cases h1 : scan_entry dc q key with
      | error e =>
        refine ⟨e, ?_⟩
        unfold scanKeys
        rw [if_pos hends, h1]
      | ok r =>
        have hkeyok : entryOK dc q key = true := by
          unfold entryOK
          rw [h1]
          rfl
        have hkrest : k ∈ rest := by
          rcases List.mem_cons.mp hk with rfl | hm
          · rw [hkeyok] at hkbad; cases hkbad
          · exact hm
        obtain ⟨e, he⟩ := ih ⟨k, hkrest, hkends, hkbad⟩
        refine ⟨e, ?_⟩
        unfold scanKeys
        rw [if_pos hends, h1, he]
    · have hkrest : k ∈ rest := by
        rcases List.mem_cons.mp hk with rfl | hm
        · exact absurd hkends (by simpa using hends)
        · exact hm
      obtain ⟨e, he⟩ := ih ⟨k, hkrest, hkends, hkbad⟩
      refine ⟨e, ?_⟩
      unfold scanKeys
      rw [if_neg hends]
      exact he

/-- Shape of a successful retrieve_from_disk: the sorted, truncated scan. -/
theorem retrieve_from_disk_ok_spec {RAG : RAGModel} {query : String} {k : Nat}
    {d : DiskCacheIndexer} {out : List DiskResult}
    (hd : RAG.disk_cache = some d)
    (h : retrieve_from_disk RAG query k = .ok out) :
    ∃ rs, scanKeys d.cache (RAG.encode_query query) d.cache.iterkeys = .ok rs ∧
      out = (pySortDesc rs).take k := by
  unfold retrieve_from_disk at h
  rw [hd] at h
  dsimp only at h
  cases h1 : scanKeys d.cache (RAG.encode_query query) d.cache.iterkeys with
  | error e => rw [h1] at h; cases h
  | ok rs =>
    rw [h1] at h
    injection h with h
    exact ⟨rs, rfl, h.symm⟩

/-- Unfolds one disk-mode iteration of the materialization loop on a valid
dict result. -/
theorem process_go_cons_disk {RAG : RAGModel} {sid : String} {r : DiskResult}
    {rest : List ResultObj} {fs : FS} {b : ImgBytes}
    (hmode : RAG.use_disk_storage = some true)
    (himg : r.image = .img b) (hbv : b.valid = true) :
    process_go RAG sid (ResultObj.dict r :: rest) fs =
      (match process_go RAG sid rest
          (if fullPathOf sid b ∈ fs.files then fs
           else fs.write (fullPathOf sid b)) with
       | .error e => .error e
       | .ok (paths, fs'') => .ok (relPathOf sid b :: paths, fs'')) := by
  simp [process_go, hmode, getItemImage, himg, asBytes, materialize_one, hbv]

/-- Disk-mode materialization of an all-valid batch: it succeeds, returns
one content-addressed relative path per input in input order, extends the
filesystem by exactly the log `w` of performed writes, and performs at most
one write per path, never one for an already-existing file; afterwards
every input's target file exists. -/
theorem process_disk_spec {RAG : RAGModel} {sid : String}
    {rs : List DiskResult} (fs : FS)
    (hmode : RAG.use_disk_storage = some true)
    (hvalid : ∀ r ∈ rs, ∃ b, r.image = .img b ∧ b.valid = true) :
    ∃ w, process_go RAG sid (rs.map ResultObj.dict) fs =
        .ok (rs.map (fun r => relPathOf sid (imgBytesOf r)),
             ⟨fs.files ++ w, fs.writes ++ w⟩) ∧
      w.Nodup ∧ (∀ p ∈ w, p ∉ fs.files) ∧
      (∀ p ∈ w, ∃ r ∈ rs, p = fullPathOf sid (imgBytesOf r)) ∧
      (∀ r ∈ rs, fullPathOf sid (imgBytesOf r) ∈ fs.files ++ w) := by
  induction rs generalizing fs with
  | nil =>
    refine ⟨[], ?_, by simp, by simp, by simp, by simp⟩
    simp [process_go]
  | cons r rest ih =>
    obtain ⟨b, himg, hbv⟩ := hvalid r (List.mem_cons_self r rest)
    have hb : imgBytesOf r = b := by simp [imgBytesOf, himg]
    have hrest : ∀ x ∈ rest, ∃ b, x.image = .img b ∧ b.valid = true :=
      fun x hx => hvalid x (List.mem_cons_of_mem r hx)
    by_cases hfp : fullPathOf sid b ∈ fs.files
    · obtain ⟨w, hgo, hnd, hnf, hsrc, hmem⟩ := ih fs hrest
      refine ⟨w, ?_, hnd, hnf, ?_, ?_⟩
      · rw [List.map_cons, process_go_cons_disk hmode himg hbv, if_pos hfp,
          hgo, List.map_cons, hb]
      · intro p hp
        obtain ⟨r', hr', hp'⟩ := hsrc p hp
        exact ⟨r', List.mem_cons_of_mem r hr', hp'⟩
      · intro r' hr'
        rcases List.mem_cons.mp hr' with rfl | hm
        · rw [hb]; exact List.mem_append_left w hfp
        · exact hmem r' hm
    · obtain ⟨w, hgo, hnd, hnf, hsrc, hmem⟩ :=
        ih (fs.write (fullPathOf sid b)) hrest
      have hfiles : (fs.write (fullPathOf sid b)).files =
          fs.files ++ [fullPathOf sid b] := rfl
      have hwrites : (fs.write (fullPathOf sid b)).writes =
          fs.writes ++ [fullPathOf sid b] := rfl
      refine ⟨fullPathOf sid b :: w, ?_, ?_, ?_, ?_, ?_⟩
      · rw [List.map_cons, process_go_cons_disk hmode himg hbv, if_neg hfp,
          hgo, List.map_cons, hb]
        rw [hfiles, hwrites]
        simp [List.append_assoc]
      · refine List.nodup_cons.mpr ⟨?_, hnd⟩
        intro hin
        have := hnf _ hin
        rw [hfiles] at this
        exact this (List.mem_append_right _ (List.mem_singleton.mpr rfl))
      · intro p hp
        rcases List.mem_cons.mp hp with rfl | hm
        · exact hfp
        · intro hpf
          exact hnf p hm (by rw [hfiles]; exact List.mem_append_left _ hpf)
      · intro p hp
        rcases List.mem_cons.mp hp with rfl | hm
        · exact ⟨r, List.mem_cons_self r rest, by rw [hb]⟩
        · obtain ⟨r', hr', hp'⟩ := hsrc p hm
          exact ⟨r', List.mem_cons_of_mem r hr', hp'⟩
      · intro r' hr'
        rcases List.mem_cons.mp hr' with rfl | hm
        · rw [hb]
          exact List.mem_append_right _ (List.mem_cons_self _ w)
        · have := hmem r' hm
          rw [hfiles] at this
          rcases List.mem_append.mp this with hL | hR
          · rcases List.mem_append.mp hL with hL' | hL''
            · exact List.mem_append_left _ hL'
            · exact List.mem_append_right _
                (List.mem_singleton.mp hL'' ▸ List.mem_cons_self _ w)
          · exact List.mem_append_right _ (List.mem_cons_of_mem _ hR)

/-- In disk mode, one aborting result anywhere in the batch makes the whole
process_results call raise: there is no per-entry error absorption beyond
the no-data skip. -/
theorem process_go_error_of_bad {RAG : RAGModel} {sid : String}
    {rs : List ResultObj} (fs : FS)
    (hmode : RAG.use_disk_storage = some true)
    (hbad : ∃ ro ∈ rs, resultAborts ro = true) :
    ∃ e, process_go RAG sid rs fs = .error e := by
  induction rs generalizing fs with
  | nil => obtain ⟨ro, hro, _⟩ := hbad; cases hro
  | cons ro rest ih =>
    by_cases habort : resultAborts ro = true
    · cases ro with
      | native nr =>
        exact ⟨.typeError, by simp [process_go, hmode, getItemImage]⟩
      | dict d =>
        cases hi : d.image with
        | emb v =>
          exact ⟨.typeError, by simp [process_go, hmode, getItemImage, hi, asBytes]⟩
        | img b =>
          have hbv : b.valid = false := by
            simp [resultAborts, hi] at habort
            cases hv : b.valid
            · rfl
            · rw [hv] at habort; cases habort
          exact ⟨.imageError, by
            simp [process_go, hmode, getItemImage, hi, asBytes,
              materialize_one, hbv]⟩
    · obtain ⟨ro', hro', habort'⟩ := hbad
      have hrest : ro' ∈ rest := by
        rcases List.mem_cons.mp hro' with rfl | hm
        · exact absurd habort' habort
        · exact hm
      cases ro with
      | native nr =>
        exact ⟨.typeError, by simp [process_go, hmode, getItemImage]⟩
      | dict d =>
        cases hi : d.image with
        | emb v =>
          exact ⟨.typeError, by simp [process_go, hmode, getItemImage, hi, asBytes]⟩
        | img b =>
          have hbv : b.valid = true := by
            simp [resultAborts, hi] at habort
            exact habort
          obtain ⟨e, he⟩ := ih
            (if fullPathOf sid b ∈ fs.files then fs
             else fs.write (fullPathOf sid b)) ⟨ro', hrest, habort'⟩
          refine ⟨e, ?_⟩
          rw [process_go_cons_disk hmode hi hbv, he]

/-- Replacing in an empty string is the empty string. -/
theorem pyReplaceFuel_nil (old new : List Char) (fuel : Nat) :
    pyReplaceFuel old new fuel [] = [] := by
  cases fuel <;> rfl

/-- str.replace rewrites a final occurrence of `old` correctly provided no
occurrence of `old` starts anywhere before it. -/
theorem pyReplaceFuel_append (old new : List Char) (hold : old ≠ []) :
    ∀ (b : List Char) (fuel : Nat), b.length + old.length ≤ fuel →
    (∀ p, p < b.length → old.isPrefixOf ((b ++ old).drop p) = false) →
    pyReplaceFuel old new fuel (b ++ old) = b ++ new := by
  intro b
  induction b with
  | nil =>
    intro fuel hfuel _
    cases old with
    | nil => exact absurd rfl hold
    | cons o os =>
      cases fuel with
      | zero => simp at hfuel
      | succ f =>
        show pyReplaceFuel (o :: os) new (f + 1) (o :: os) = [] ++ new
        unfold pyReplaceFuel
        rw [if_pos ⟨hold, List.isPrefixOf_iff_prefix.mpr (List.prefix_refl _)⟩]
        rw [List.drop_of_length_le (le_refl (o :: os).length)]
        rw [pyReplaceFuel_nil]
        simp
  | cons c bs ih =>
    intro fuel hfuel hclean
    cases fuel with
    | zero => simp at hfuel
    | succ f =>
      have hnp : old.isPrefixOf (c :: (bs ++ old)) = false := by
        have := hclean 0 (by simp)
        simpa [List.cons_append] using this
      show pyReplaceFuel old new (f + 1) (c :: (bs ++ old)) = c :: (bs ++ new)
      unfold pyReplaceFuel
      rw [if_neg (by
        intro hcontra
        have h2 := hcontra.2
        rw [hnp] at h2
        cases h2)]
      congr 1
      refine ih f ?_ ?_
      · have : bs.length + old.length + 1 ≤ f + 1 := by
          simpa [List.length_cons, Nat.add_right_comm] using hfuel
        omega
      · intro p hp
        have := hclean (p + 1) (by simpa using Nat.succ_lt_succ hp)
        simpa using this

/-- String-level form: for a base key with no early occurrence of `old`,
replace maps `base ++ old` to `base ++ new`. -/
theorem pyReplace_append_of_clean (b old new : String)
    (hold : old.data ≠ []) (hclean : keyCleanFor b old = true) :
    pyReplace (b ++ old) old new = b ++ new := by
  apply String.ext
  show pyReplaceFuel old.data new.data (b ++ old).data.length (b ++ old).data =
    (b ++ new).data
  rw [String.data_append, String.data_append]
  refine pyReplaceFuel_append old.data new.data hold b.data _ (by simp) ?_
  intro p hp
  have hall := List.all_eq_true.mp hclean
  have := hall p (List.mem_range.mpr hp)
  simpa [Bool.not_eq_true'] using this

/-- Claim C9: round-trip through the embedding cache — for every key and
every image value, get_image after store_image returns the stored value,
and likewise store_embedding/get_embedding under the same key. -/
theorem claim_C9_roundtrip (d : DiskCacheIndexer) (key : String)
    (img emb : PValue) :
    (d.store_image key img).get_image key = .ok img ∧
    (d.store_embedding key emb).get_embedding key = .ok emb := by
  constructor
  · unfold DiskCacheIndexer.get_image DiskCacheIndexer.store_image
    rw [DCache.get_set_self]
    rfl
  · unfold DiskCacheIndexer.get_embedding DiskCacheIndexer.store_embedding
    rw [DCache.get_set_self]
    rfl

/-- Claim C2: whenever the external converter and the encoder loader
succeed, index_documents fails with the UnboundLocalError for the local
variable disk_cache — the assignment `RAG.disk_cache = disk_cache`
executes before that local is bound — and in particular it never returns a
cache handle, regardless of the folder's contents. -/
theorem claim_C2_unbound_local (env : IndexEnv)
    (folder_path index_name : String) (index_path : Option String)
    (indexer_model : String)
    (hconv : env.convert_docs_to_pdfs folder_path = .ok ())
    (R : RAGModel) (hpre : env.from_pretrained indexer_model = .ok R) :
    index_documents env folder_path index_name index_path indexer_model =
      .error (.unboundLocal "disk_cache") ∧
    ∀ R', index_documents env folder_path index_name index_path
      indexer_model ≠ .ok R' := by
  have h : index_documents env folder_path index_name index_path
      indexer_model = .error (.unboundLocal "disk_cache") := by
    unfold index_documents
    rw [hconv, hpre]
    rfl
  exact ⟨h, fun R' hR' => by rw [h] at hR'; cases hR'⟩

/-- Witness for C2 at a concrete environment whose converter and encoder
both succeed over a one-file folder. -/
theorem claim_C2_witness :
    envOK.convert_docs_to_pdfs "docs" = .ok () ∧
    index_documents envOK "docs" "document_index" none "vidore/colpali" =
      .error (.unboundLocal "disk_cache") :=
  ⟨rfl, (claim_C2_unbound_local envOK "docs" "document_index" none
    "vidore/colpali" rfl ragPlain rfl).1⟩

/-- Claim C8 (amended): no per-file error recovery exists in
index_documents — every call aborts with a logged-and-reraised exception
before any document is parsed (the unbound-local read, or an earlier
external failure), so indexing never completes for any folder; in
particular an abort does not require an encoder-initialization failure. -/
theorem claim_C8_amended (env : IndexEnv) (folder_path index_name : String)
    (index_path : Option String) (indexer_model : String) :
    ∃ e, index_documents env folder_path index_name index_path
      indexer_model = .error e := by
  unfold index_documents
  cases hconv : env.convert_docs_to_pdfs folder_path with
  | error e => exact ⟨e, rfl⟩
  | ok u =>
    cases u
    cases hpre : env.from_pretrained indexer_model with
    | error e => exact ⟨e, rfl⟩
    | ok R => exact ⟨.unboundLocal "disk_cache", rfl⟩

/-- Counterexample to C8 as stated: the encoder loader succeeds, the single
document in the folder parses, and indexing still aborts — with an
UnboundLocalError, not an encoder-initialization IndexingError, and without
continuing past any file. -/
theorem claim_C8_counterexample :
    envOK.from_pretrained "vidore/colpali" = .ok ragPlain ∧
    index_documents envOK "docs" "document_index" none "vidore/colpali" =
      .error (.unboundLocal "disk_cache") :=
  ⟨rfl, rfl⟩

/-- Claim C4 (amended): retrieve_documents raises to its caller exactly
when the primary path fails with AttributeError and the one fallback
attempt through the native search then also fails; any other primary-path
exception is absorbed into an empty result without any fallback attempt. -/
theorem claim_C4_amended (RAG : RAGModel) (query session_id : String)
    (fs : FS) (k : Nat) (e : PyError) :
    retrieve_documents RAG query session_id fs k = .error e ↔
      (retrieve_primary RAG query session_id fs k = .error .attributeError ∧
       retrieve_fallback RAG query session_id fs k = .error e) := by
  unfold retrieve_documents
  cases h : retrieve_primary RAG query session_id fs k with
  | ok r => simp
  | error e' => cases e' <;> simp

/-- Counterexample to C4 as stated: with a disk-mode model whose disk_cache
attribute is missing and whose native search raises, retrieve_documents
propagates the fallback's exception to its caller instead of returning an
empty sequence. -/
theorem claim_C4_counterexample :
    retrieve_documents ragNoCache "q" "s" ⟨[], []⟩ 3 =
      .error (.external "native search down") := rfl

/-- Counterexample to C3 as stated: for the zero-norm query `[0, 0]`
against `[1, 1]`, compute_similarity does not return a defined value 0 —
it evaluates the unguarded division `0.0 / 0.0`, the NaN marker
`den2 = 0`. -/
theorem claim_C3_counterexample :
    compute_similarity [0, 0] [1, 1] = .ok ⟨0, 0⟩ ∧
    ¬ ∃ s, compute_similarity [0, 0] [1, 1] = .ok s ∧ 0 < s.den2 := by
  have h : compute_similarity [0, 0] [1, 1] = .ok ⟨0, 0⟩ := by
    unfold compute_similarity
    norm_num [dotList, normSq]
  refine ⟨h, ?_⟩
  rintro ⟨s, hs, hpos⟩
  rw [h] at hs
  injection hs with hs
  rw [← hs] at hpos
  exact absurd hpos (lt_irrefl 0)

/-- Claim C3 (amended): compute_similarity divides by the norm product with
no zero-norm guard.  When either operand has zero norm the float result is
NaN (the division is exactly `0 / 0`, marked `den2 = 0`), not a defined 0;
when both norms are nonzero the result is the well-defined cosine value,
so the ordering of search results is total only on nonzero-norm data. -/
theorem claim_C3_amended (q d : List ℚ) (hlen : q.length = d.length) :
    (normSq q * normSq d = 0 → compute_similarity q d = .ok ⟨0, 0⟩) ∧
    (normSq q * normSq d ≠ 0 →
      ∃ s, compute_similarity q d = .ok s ∧ 0 < s.den2 ∧
        s = ⟨dotList q d, normSq q * normSq d⟩) := by
  constructor
  · intro hzero
    have hdot : dotList q d = 0 := by
      rcases mul_eq_zero.mp hzero with hq | hd
      · exact dotList_eq_zero_left q hq d
      · exact dotList_eq_zero_right d hd q
    unfold compute_similarity
    rw [if_pos hlen, hdot, hzero]
  · intro hne
    have hpos : 0 < normSq q * normSq d :=
      lt_of_le_of_ne (mul_nonneg (normSq_nonneg q) (normSq_nonneg d))
        (Ne.symm hne)
    refine ⟨⟨dotList q d, normSq q * normSq d⟩, ?_, hpos, rfl⟩
    unfold compute_similarity
    rw [if_pos hlen]

/-- Witness for the amended C3 at concrete vectors: the zero-norm pair
yields the NaN marker and a nonzero-norm pair yields the defined cosine. -/
theorem claim_C3_witness :
    compute_similarity [0, 0] [1, 1] = .ok ⟨0, 0⟩ ∧
    (∃ s, compute_similarity [1] [2] = .ok s ∧ 0 < s.den2 ∧ s = ⟨2, 4⟩) := by
  constructor
  · exact (claim_C3_amended [0, 0] [1, 1] rfl).1
      (by norm_num [normSq, dotList])
  · obtain ⟨s, h1, h2, h3⟩ := (claim_C3_amended [1] [2] rfl).2
      (by norm_num [normSq, dotList])
    refine ⟨s, h1, h2, ?_⟩
    rw [h3]
    norm_num [normSq, dotList]

/-- Claim C1 (amended): per-entry failures are not absorbed per entry.  One
corrupt or orphaned `_embedding` entry anywhere in the cache makes the
whole disk search raise (the valid entries are not returned); one
non-decodable entry in a disk-mode batch makes the whole process_results
call raise. -/
theorem claim_C1_amended :
    (∀ (RAG : RAGModel) (query : String) (k : Nat) (d : DiskCacheIndexer),
      RAG.disk_cache = some d →
      (∃ key ∈ d.cache.iterkeys, pyEndsWith key "_embedding" = true ∧
        entryOK d.cache (RAG.encode_query query) key = false) →
      ∃ e, retrieve_from_disk RAG query k = .error e) ∧
    (∀ (RAG : RAGModel) (sid : String) (rs : List ResultObj) (fs : FS),
      RAG.use_disk_storage = some true →
      (∃ ro ∈ rs, resultAborts ro = true) →
      ∃ e, process_results rs RAG sid fs = .error e) := by
  constructor
  · intro RAG query k d hd hbad
    obtain ⟨e, he⟩ := scanKeys_error_of_invalid hbad
    refine ⟨e, ?_⟩
    unfold retrieve_from_disk
    rw [hd]
    dsimp only
    rw [he]
  · intro RAG sid rs fs hmode hbad
    exact process_go_error_of_bad fs hmode hbad

/-- Witness for the amended C1 at a concrete orphaned cache and a concrete
bad batch. -/
theorem claim_C1_witness :
    (∃ e, retrieve_from_disk ragOrphan "q" 3 = .error e) ∧
    (∃ e, process_results badBatch ragOrphan "s" ⟨[], []⟩ = .error e) :=
  ⟨claim_C1_amended.1 ragOrphan "q" 3 ⟨dcOrphan⟩ rfl (by decide),
   claim_C1_amended.2 ragOrphan "s" badBatch ⟨[], []⟩ rfl (by decide)⟩

/-- Counterexample to C1 as stated: over a cache holding one complete pair
plus one orphaned embedding, the disk search raises TypeError instead of
returning the remaining valid entry, and materializing a batch with one
undecodable entry among two valid ones raises instead of returning the two
valid results. -/
theorem claim_C1_counterexample :
    retrieve_from_disk ragOrphan "q" 3 = .error .typeError ∧
    process_results badBatch ragOrphan "s" ⟨[], []⟩ = .error .imageError :=
  ⟨rfl, rfl⟩

/-- A sequence of length at least two containing a NaN similarity is not
in descending order under IEEE float comparison: the NaN element fails the
comparison with whichever neighbour it has. -/
theorem not_chain_pyFloatGe_of_nan :
    ∀ (l : List DiskResult), 2 ≤ l.length →
    (∃ x ∈ l, x.similarity.den2 = 0) →
    ¬ l.Chain' (fun a b => pyFloatGe a.similarity b.similarity) := by
  intro l
  induction l with
  | nil => intro h; simp at h
  | cons a rest ih =>
    intro hlen hnan hchain
    cases rest with
    | nil => simp at hlen
    | cons b rest2 =>
      obtain ⟨x, hx, hx0⟩ := hnan
      rcases List.chain'_cons.mp hchain with ⟨⟨ha0, hb0, _⟩, hchain2⟩
      rcases List.mem_cons.mp hx with rfl | hx'
      · exact ha0 hx0
      · cases rest2 with
        | nil =>
          rcases List.mem_cons.mp hx' with rfl | h0
          · exact hb0 hx0
          · cases h0
        | cons c rest3 =>
          exact ih (by simp) ⟨x, hx', hx0⟩ hchain2

/-- Counterexample to C5 as stated: over a cache with exactly one valid
embedding entry beside one corrupt one, the search does not return
min(k, number of valid entries) = 1 results — it raises out of the scan
loop and returns no result list at all. -/
theorem claim_C5_counterexample :
    retrieve_from_disk ragMixed "q" 3 = .error .unpicklingError ∧
    ¬ ∃ out, retrieve_from_disk ragMixed "q" 3 = .ok out ∧
      out.length = min 3 1 := by
  have h : retrieve_from_disk ragMixed "q" 3 = .error .unpicklingError := rfl
  refine ⟨h, ?_⟩
  rintro ⟨out, hout, _⟩
  rw [h] at hout
  cases hout

/-- Claim C5 (amended): with every cached embedding entry valid, the disk search
returns exactly min(k, number of embedding entries) results — never more
than k, all of them when fewer than k exist, and the empty sequence (not
an error) on an empty cache. -/
theorem claim_C5_topk (RAG : RAGModel) (query : String) (k : Nat)
    (d : DiskCacheIndexer) (hd : RAG.disk_cache = some d)
    (hvalid : ∀ key ∈ d.cache.iterkeys, pyEndsWith key "_embedding" = true →
      entryOK d.cache (RAG.encode_query query) key = true) :
    ∃ out, retrieve_from_disk RAG query k = .ok out ∧
      out.length = min k ((d.cache.iterkeys.filter
        (fun key => pyEndsWith key "_embedding")).length) ∧
      (d.cache.entries = [] → out = []) := by
  obtain ⟨rs, hrs⟩ := scanKeys_ok_of_valid hvalid
  refine ⟨(pySortDesc rs).take k, ?_, ?_, ?_⟩
  · unfold retrieve_from_disk
    rw [hd]
    dsimp only
    rw [hrs]
  · rw [List.length_take, pySortDesc_length]
    congr 1
    have hmap := (scanKeys_ok_spec hrs).1
    calc rs.length = (rs.map (·.key)).length := (List.length_map rs _).symm
      _ = _ := by rw [hmap]
  · intro hnil
    have hiter : d.cache.iterkeys = [] := by
      unfold DCache.iterkeys
      rw [hnil]
      rfl
    rw [hiter] at hrs
    have hrs' : rs = [] := by
      unfold scanKeys at hrs
      injection hrs with h
      exact h.symm
    rw [hrs']
    simp [pySortDesc]

/-- Witness for C5: over the three-page cache with k = 2, the search
succeeds with exactly two results. -/
theorem claim_C5_witness :
    ∃ out, retrieve_from_disk ragThree "q" 2 = .ok out ∧ out.length = 2 := by
  obtain ⟨out, h1, h2, _⟩ :=
    claim_C5_topk ragThree "q" 2 ⟨dcThree⟩ rfl (by decide)
  exact ⟨out, h1, by rw [h2]; decide⟩

/-- Claim C6 (amended): whenever the disk search completes over a well-formed cache
(keys in lexical order, as diskcache iterates them) whose query and stored
embeddings all have nonzero norm, the returned sequence is sorted in
strictly descending order of the real similarity value, with ties in the
lexical order of their keys — deterministic across runs. -/
theorem claim_C6_sorted (RAG : RAGModel) (query : String) (k : Nat)
    (d : DiskCacheIndexer) (hd : RAG.disk_cache = some d)
    (hwf : d.cache.WF)
    (hq : 0 < normSq (RAG.encode_query query))
    (hpos : ∀ key ∈ d.cache.iterkeys, pyEndsWith key "_embedding" = true →
      0 < normSq (embOf d.cache key))
    (out : List DiskResult)
    (hout : retrieve_from_disk RAG query k = .ok out) :
    out.Pairwise resOrder := by
  obtain ⟨rs, hrs, houteq⟩ := retrieve_from_disk_ok_spec hd hout
  obtain ⟨hmap, hall⟩ := scanKeys_ok_spec hrs
  have hden : ∀ r ∈ rs, 0 < r.similarity.den2 := by
    intro r hr
    obtain ⟨hkey, hget, hsim⟩ := scan_entry_ok_spec (hall r hr)
    rw [hsim]
    have hkmem : r.key ∈ d.cache.iterkeys.filter
        (fun key => pyEndsWith key "_embedding") := by
      rw [← hmap]
      exact List.mem_map_of_mem (·.key) hr
    obtain ⟨hkin, hkends⟩ := List.mem_filter.mp hkmem
    exact mul_pos hq (hpos r.key hkin hkends)
  have hkeys : rs.Pairwise (fun a b => a.key < b.key) := by
    have hfil := hwf.filter (fun key => pyEndsWith key "_embedding")
    rw [← hmap] at hfil
    exact List.pairwise_map.mp hfil
  rw [houteq]
  exact (pySortDesc_pairwise hden hkeys).sublist (List.take_sublist k _)


/-- Counterexample to C6 as stated: over a cache all of whose entries
deserialize but one of whose embeddings has zero norm, the search
completes and returns both entries in some order (CPython's exact
placement of the NaN-keyed entry is not reproduced by the model, so only
permutation-invariant facts are stated), yet no ordering of these entries
is sorted descending by similarity: under float semantics every
comparison involving the NaN value is false. -/
theorem claim_C6_counterexample :
    ∃ out, retrieve_from_disk ragNaN "q" 2 = .ok out ∧
      List.Perm out [rNaNa, rNaNb] ∧
      rNaNa.similarity.den2 = 0 ∧
      ∀ out', List.Perm out' [rNaNa, rNaNb] →
        ¬ out'.Chain' (fun a b => pyFloatGe a.similarity b.similarity) := by
  have hleb : SimVal.leb rNaNb.similarity rNaNa.similarity = false := by
    norm_num [SimVal.leb, rNaNa, rNaNb, dotList, normSq]
  have hscan : scanKeys dcNaN [1, 0] dcNaN.iterkeys = .ok [rNaNa, rNaNb] := rfl
  have hsort : pySortDesc [rNaNa, rNaNb] = [rNaNb, rNaNa] := by
    simp [pySortDesc, pyInsertDesc, hleb]
  have hout : retrieve_from_disk ragNaN "q" 2 = .ok [rNaNb, rNaNa] := by
    unfold retrieve_from_disk
    dsimp only [ragNaN]
    rw [hscan]
    dsimp only
    rw [hsort]
    rfl
  have ha0 : rNaNa.similarity.den2 = 0 := by
    norm_num [rNaNa, normSq, dotList]
  refine ⟨[rNaNb, rNaNa], hout, List.Perm.swap rNaNa rNaNb [], ha0, ?_⟩
  intro out' hperm
  refine not_chain_pyFloatGe_of_nan out' ?_ ?_
  · simp [hperm.length_eq]
  · exact ⟨rNaNa, hperm.mem_iff.mpr (List.mem_cons_self rNaNa [rNaNb]), ha0⟩

/-- Witness for C6: over the two-page cache the search output for k = 2 is
the concrete ranked list, and it is pairwise in the promised order. -/
theorem claim_C6_witness :
    DCache.WF dcTwo ∧ List.Pairwise resOrder [rTwoA, rTwoB] := by
  have hscan : scanKeys dcTwo [1, 0] dcTwo.iterkeys = .ok [rTwoA, rTwoB] := rfl
  have hleb : SimVal.leb rTwoB.similarity rTwoA.similarity = true := by
    norm_num [SimVal.leb, rTwoA, rTwoB, dotList, normSq]
  have hsort : pySortDesc [rTwoA, rTwoB] = [rTwoA, rTwoB] := by
    simp [pySortDesc, pyInsertDesc, hleb]
  have hout : retrieve_from_disk ragTwo "q" 2 = .ok [rTwoA, rTwoB] := by
    unfold retrieve_from_disk
    dsimp only [ragTwo]
    rw [hscan]
    dsimp only
    rw [hsort]
    rfl
  have hwf : DCache.WF dcTwo := by
    unfold DCache.WF
    have hdata : List.Pairwise (fun a b : String => a.data < b.data)
        dcTwo.iterkeys := by decide
    exact hdata.imp (fun h => String.lt_iff_toList_lt.mpr h)
  refine ⟨hwf, ?_⟩
  refine claim_C6_sorted ragTwo "q" 2 ⟨dcTwo⟩ rfl hwf ?_ ?_ [rTwoA, rTwoB] hout
  · norm_num [ragTwo, normSq, dotList]
  · intro key hk hke
    fin_cases hk
    · have he : embOf dcTwo "a_0_embedding" = [1, 0] := rfl
      rw [he]
      norm_num [normSq, dotList]
    · exact absurd hke (by decide)
    · have he : embOf dcTwo "b_0_embedding" = [0, 1] := rfl
      rw [he]
      norm_num [normSq, dotList]
    · exact absurd hke (by decide)

/-- Claim C7: materialization of a disk-mode batch of decodable images is
idempotent and order/count-preserving — the first call returns one
content-addressed relative path per input occurrence in input order
(identical bytes giving identical path strings), writes each missing file
exactly once and an already-present file never; the immediate second call
over the same batch returns the same paths, performs no write at all and
leaves the filesystem unchanged, raising in neither call. -/
theorem claim_C7_idempotent (RAG : RAGModel) (sid : String)
    (rs : List DiskResult) (fs : FS)
    (hmode : RAG.use_disk_storage = some true)
    (hvalid : ∀ r ∈ rs, ∃ b, r.image = .img b ∧ b.valid = true) :
    ∃ paths fs1 w,
      process_results (rs.map ResultObj.dict) RAG sid fs = .ok (paths, fs1) ∧
      process_results (rs.map ResultObj.dict) RAG sid fs1 = .ok (paths, fs1) ∧
      paths = rs.map (fun r => relPathOf sid (imgBytesOf r)) ∧
      fs1.files = fs.files ++ w ∧ fs1.writes = fs.writes ++ w ∧
      w.Nodup ∧ (∀ p ∈ w, p ∉ fs.files) ∧
      (∀ r ∈ rs, ∀ r' ∈ rs, imgBytesOf r = imgBytesOf r' →
        relPathOf sid (imgBytesOf r) = relPathOf sid (imgBytesOf r')) := by
  obtain ⟨w, hgo, hnd, hnf, hsrc, hmem⟩ := process_disk_spec fs hmode hvalid
  obtain ⟨w2, hgo2, _, hnf2, hsrc2, _⟩ :=
    process_disk_spec (FS.mk (fs.files ++ w) (fs.writes ++ w)) hmode hvalid
  have hw2nil : w2 = [] := by
    rw [List.eq_nil_iff_forall_not_mem]
    intro p hp
    obtain ⟨r, hr, hpr⟩ := hsrc2 p hp
    exact hnf2 p hp (by rw [hpr]; exact hmem r hr)
  refine ⟨rs.map (fun r => relPathOf sid (imgBytesOf r)),
    ⟨fs.files ++ w, fs.writes ++ w⟩, w, ?_, ?_, rfl, rfl, rfl, hnd, hnf, ?_⟩
  · exact hgo
  · rw [hw2nil] at hgo2
    simpa using hgo2
  · intro r _ r' _ hb
    rw [hb]

/-- Witness for C7: two results carrying identical bytes, over an empty
filesystem. -/
theorem claim_C7_witness :
    ∃ paths fs1 w,
      process_results ([resDupA, resDupB].map ResultObj.dict) ragDiskOnly
        "s" ⟨[], []⟩ = .ok (paths, fs1) ∧
      process_results ([resDupA, resDupB].map ResultObj.dict) ragDiskOnly
        "s" fs1 = .ok (paths, fs1) ∧
      paths = [resDupA, resDupB].map
        (fun r => relPathOf "s" (imgBytesOf r)) ∧
      fs1.files = [] ++ w ∧ fs1.writes = [] ++ w ∧
      w.Nodup ∧ (∀ p ∈ w, p ∉ ([] : List String)) ∧
      (∀ r ∈ [resDupA, resDupB], ∀ r' ∈ [resDupA, resDupB],
        imgBytesOf r = imgBytesOf r' →
        relPathOf "s" (imgBytesOf r) = relPathOf "s" (imgBytesOf r')) := by
  refine claim_C7_idempotent ragDiskOnly "s" [resDupA, resDupB] ⟨[], []⟩
    rfl ?_
  intro r hr
  rcases List.mem_cons.mp hr with rfl | hr'
  · exact ⟨⟨[5], true⟩, rfl, rfl⟩
  · rcases List.mem_cons.mp hr' with rfl | hr''
    · exact ⟨⟨[5], true⟩, rfl, rfl⟩
    · cases hr''

/-- Claim C10 (amended): the sibling image key is computed by replacing
every occurrence of the substring "_embedding" with "_image" in the
embedding key (this is the lookup scan_entry performs).  For a base key in
which "_embedding" occurs nowhere before the final suffix, the computed
key is exactly the sibling `base ++ "_image"`; a fileName containing
"_embedding" breaks this (see the counterexample). -/
theorem claim_C10_sibling (base : String)
    (hclean : keyCleanFor base "_embedding" = true) :
    pyReplace (base ++ "_embedding") "_embedding" "_image" =
      base ++ "_image" :=
  pyReplace_append_of_clean base "_embedding" "_image" (by decide) hclean

/-- Witness for the amended C10 at the base key of a typical page. -/
theorem claim_C10_witness :
    keyCleanFor "report.pdf_0" "_embedding" = true ∧
    pyReplace ("report.pdf_0" ++ "_embedding") "_embedding" "_image" =
      "report.pdf_0" ++ "_image" :=
  ⟨by decide, claim_C10_sibling "report.pdf_0" (by decide)⟩

/-- Counterexample to C10 as stated: for a fileName containing
"_embedding", the replace-all rewrites the fileName part too, so the
looked-up key is not the sibling `base ++ "_image"` of the same page. -/
theorem claim_C10_counterexample :
    pyReplace "doc_embedding.pdf_0_embedding" "_embedding" "_image" =
      "doc_image.pdf_0_image" ∧
    "doc_image.pdf_0_image" ≠ "doc_embedding.pdf_0_image" :=
  ⟨rfl, by decide⟩
